import Mathlib

/-!
Verification of the StepperWinch motion core (Path.cpp / Path.h,
Stepper.cpp / Stepper.h) against its specification.

Modelling conventions:

* The Path generator's `float` quantities are modelled by the type `F`
  below: exact rationals extended with the IEEE special values `+inf`,
  `-inf` and `nan`.  The specification (design notes) itself prescribes a
  tagged variant for the infinities, which the source uses as first-class
  values (`speed = INFINITY`, `q_d_d = ±INFINITY`); `nan` is included
  because IEEE arithmetic on those infinities can produce it
  (`∞ - ∞`, `0 · ∞`), and the comparison-based macros `constrain` and
  `min` of the source then propagate it.  Rounding of finite values is
  idealised (exact rational arithmetic), which is irrelevant to the
  claims below: they concern clamping, ordering and case structure, not
  rounding error.

* The Stepper's `long` position/target are modelled by `Int`; its
  `unsigned long` elapsed/step_interval/interval by `Nat`, with the
  single overflowing operation (`elapsed += interval`) taken modulo
  2^32 as C unsigned arithmetic prescribes.

* `digitalWrite` calls are recorded as an emitted event list, in program
  order, so that pulse counts and the dir-before-step ordering are
  observable.
-/

namespace StepperWinch

/-- IEEE-style scalar: an exact rational, a signed infinity, or nan.
`inf true` is `+∞`, `inf false` is `-∞`. -/
inductive F where
  | nan : F
  | inf : Bool → F
  | fin : ℚ → F
deriving DecidableEq, Repr

namespace F

/-- IEEE negation. -/
def neg : F → F
  | nan => nan
  | inf b => inf (!b)
  | fin x => fin (-x)

/-- IEEE addition (exact on finite operands): `∞ + (-∞) = nan`. -/
def add : F → F → F
  | nan, _ => nan
  | _, nan => nan
  | inf b, inf c => if b = c then inf b else nan
  | inf b, fin _ => inf b
  | fin _, inf c => inf c
  | fin x, fin y => fin (x + y)

/-- IEEE subtraction. -/
def sub (a b : F) : F := add a (neg b)

/-- IEEE multiplication (exact on finite operands): `0 · ∞ = nan`. -/
def mul : F → F → F
  | nan, _ => nan
  | _, nan => nan
  | inf b, inf c => inf (b == c)
  | inf b, fin x => if x = 0 then nan else inf (b == decide (0 < x))
  | fin x, inf c => if x = 0 then nan else inf (c == decide (0 < x))
  | fin x, fin y => fin (x * y)

/-- IEEE `<`: any comparison involving nan is false. -/
def blt : F → F → Bool
  | nan, _ => false
  | _, nan => false
  | inf b, inf c => !b && c
  | inf b, fin _ => !b
  | fin _, inf c => c
  | fin x, fin y => decide (x < y)

/-- IEEE `==`: nan compares unequal to everything. -/
def beq : F → F → Bool
  | inf b, inf c => b == c
  | fin x, fin y => decide (x = y)
  | _, _ => false

/-- IEEE `<=`. -/
def ble (a b : F) : Bool := blt a b || beq a b

/-- The C test `x == 0.0`. -/
def beqz (a : F) : Bool := beq a (fin 0)

/-- The C `isinf` predicate. -/
def isinf : F → Bool
  | inf _ => true
  | _ => false

/-- Finiteness (true exactly on `fin` values). -/
def isFinite : F → Bool
  | fin _ => true
  | _ => false

/-- Absolute value. -/
def abs : F → F
  | nan => nan
  | inf _ => inf true
  | fin x => fin |x|

/-- The Arduino macro `min(a,b) = ((a)<(b)?(a):(b))`. -/
def fmin (a b : F) : F := if blt a b then a else b

/-- The Arduino macro
`constrain(amt,low,high) = ((amt)<(low)?(low):((amt)>(high)?(high):(amt)))`. -/
def constrain (amt low high : F) : F :=
  if blt amt low then low else if blt high amt then high else amt

end F

/-- A `digitalWrite` performed by the step generator, in program order.
`dirWrite true` is HIGH on the direction pin; `stepWrite true` is the
rising edge on the step pin. -/
inductive Ev where
  | dirWrite : Bool → Ev
  | stepWrite : Bool → Ev
deriving DecidableEq, Repr

/-- State of `class Stepper` (Stepper.h).  `position`/`target` are C
`long` (modelled as unbounded integers; signed overflow is UB in the
source), `elapsed`/`step_interval` are C `unsigned long` (32-bit). -/
structure Stepper where
  step_pin : ℕ
  dir_pin : ℕ
  target : ℤ
  step_interval : ℕ
  position : ℤ
  elapsed : ℕ
deriving DecidableEq, Repr

namespace Stepper

/-- Model of `Stepper::Stepper(step_pin, dir_pin)` (Stepper.cpp). -/
def mkStepper (sp dp : ℕ) : Stepper :=
  { step_pin := sp, dir_pin := dp, target := 0, step_interval := 200,
    position := 0, elapsed := 0 }

/-- Model of `Stepper::pollForInterval` (Stepper.cpp): accumulate elapsed time
(32-bit unsigned), and when one step interval has elapsed, subtract it
and emit at most one step pulse toward the target.  Returns the new
state and the pin writes in program order. -/
def pollForInterval (s : Stepper) (interval : ℕ) : Stepper × List Ev :=
  let e := (s.elapsed + interval) % 2 ^ 32
  if s.step_interval ≤ e then
    let e := e - s.step_interval
    if s.position ≠ s.target then
      ({ s with
          elapsed := e,
          position := if s.position < s.target then s.position + 1
                      else s.position - 1 },
       [Ev.dirWrite (s.position < s.target), Ev.stepWrite true,
        Ev.stepWrite false])
    else ({ s with elapsed := e }, [])
  else ({ s with elapsed := e }, [])

/-- Model of `Stepper::setTarget` (Stepper.h). -/
def setTarget (s : Stepper) (position : ℤ) : Stepper :=
  { s with target := position }

/-- Model of `Stepper::incrementTarget` (Stepper.h). -/
def incrementTarget (s : Stepper) (offset : ℤ) : Stepper :=
  { s with target := s.target + offset }

/-- Model of `Stepper::setSpeed` (Stepper.h): for positive speed,
`step_interval = 1000000 / speed`, bumped to 1 when the division gives
0; non-positive speeds are ignored. -/
def setSpeed (s : Stepper) (speed : ℤ) : Stepper :=
  if 0 < speed then
    let si := 1000000 / speed.toNat
    { s with step_interval := if si = 0 then 1 else si }
  else s

/-- Number of step pulses (rising edges on the step pin) in an event
list. -/
def pulses (evs : List Ev) : ℕ := evs.count (Ev.stepWrite true)

/-- Run `n` polls of `pollForInterval` with a constant interval,
returning the final state and the total number of step pulses emitted. -/
def pollN (s : Stepper) (i : ℕ) : ℕ → Stepper × ℕ
  | 0 => (s, 0)
  | n + 1 =>
    let r := pollForInterval s i
    let rest := pollN r.1 i n
    (rest.1, pulses r.2 + rest.2)

end Stepper

/-- State of `class Path` (Path.h).  All fields are C `float`, modelled
by `F`.  The member `qdd` is kept for fidelity: the constructor zeroes
it and `pollForInterval` shadows it with a local, so the member is never
updated by a poll. -/
structure Path where
  q : F
  qd : F
  qdd : F
  q_d : F
  qd_d : F
  q_d_d : F
  speed : F
  t : F
  k : F
  b : F
  qd_max : F
  qdd_max : F
deriving DecidableEq, Repr

namespace Path

/-- Model of `Path::pollForInterval` (Path.cpp): PD acceleration clamped to
`±qdd_max`, forward-Euler integration (`q` first, with the pre-update
`qd`), velocity clamp to `±qd_max`, then the reference-trajectory ramp
update on `q_d`/`qd_d`. -/
def pollForInterval (s : Path) (interval : ℕ) : Path :=
  let dt : F := F.fin ((interval : ℚ) / 1000000)
  let qdd : F :=
    F.constrain
      (F.add (F.mul s.k (F.sub s.q_d s.q)) (F.mul s.b (F.sub s.qd_d s.qd)))
      (F.neg s.qdd_max) s.qdd_max
  let q : F := F.add s.q (F.mul s.qd dt)
  let qd : F := F.constrain (F.add s.qd (F.mul qdd dt)) (F.neg s.qd_max) s.qd_max
  let t : F := F.add s.t dt
  let q_d_err : F := F.sub s.q_d_d s.q_d
  if F.beqz q_d_err then
    { s with q := q, qd := qd, t := t, qd_d := F.fin 0 }
  else if F.isinf s.speed then
    { s with q := q, qd := qd, t := t, q_d := s.q_d_d, qd_d := F.fin 0 }
  else
    let d_q_d_max : F := F.mul s.speed dt
    if F.blt (F.fin 0) q_d_err then
      { s with
          q := q, qd := qd, t := t,
          q_d := F.add s.q_d (F.fmin d_q_d_max q_d_err), qd_d := s.speed }
    else
      { s with
          q := q, qd := qd, t := t,
          q_d := F.sub s.q_d (F.fmin d_q_d_max (F.neg q_d_err)),
          qd_d := F.neg s.speed }

/-- Model of `Path::setTarget` (Path.h). -/
def setTarget (s : Path) (position : ℤ) : Path :=
  { s with q_d_d := F.fin (position : ℚ) }

/-- Model of `Path::incrementTarget` (Path.h). -/
def incrementTarget (s : Path) (offset : ℤ) : Path :=
  { s with q_d_d := F.add s.q_d_d (F.fin (offset : ℚ)) }

/-- Model of `Path::incrementReference` (Path.h). -/
def incrementReference (s : Path) (offset : ℤ) : Path :=
  { s with q_d := F.add s.q_d (F.fin (offset : ℚ)) }

/-- Model of `Path::setSpeed` (Path.h): non-positive speeds become `INFINITY`. -/
def setSpeed (s : Path) (newspeed : ℤ) : Path :=
  { s with speed := if newspeed ≤ 0 then F.inf true else F.fin (newspeed : ℚ) }

/-- Model of `Path::setVelocity` (Path.h): `speed = abs(newspeed)` and the target
becomes `±INFINITY` by the sign of the argument. -/
def setVelocity (s : Path) (newspeed : ℤ) : Path :=
  { s with
      speed := F.fin (newspeed.natAbs : ℚ),
      q_d_d := if 0 ≤ newspeed then F.inf true else F.inf false }

/-- Model of `Path::setLimits` (Path.h). -/
def setLimits (s : Path) (qdmax qddmax : F) : Path :=
  { s with qd_max := qdmax, qdd_max := qddmax }

/-- Model of `Path::setPDgains` (Path.h). -/
def setPDgains (s : Path) (k_new b_new : F) : Path :=
  { s with k := k_new, b := b_new }

end Path

/-- Concrete Path state used to instantiate the ramp theorem: reference
at 0, target at 10, finite speed 5. -/
def c4state : Path :=
  Path.mk (F.fin 0) (F.fin 0) (F.fin 0) (F.fin 0) (F.fin 0) (F.fin 10)
    (F.fin 5) (F.fin 0) (F.fin 0) (F.fin 0) (F.fin 2400) (F.fin 24000)

/-- Path state refuting C1 as stated: `k = 0` (legal via `setPDgains`)
and the reference `q_d` at `+∞` (reachable: `setVelocity`, `setSpeed 0`,
then one poll drive `q_d` to `+∞`), so the next poll computes
`0 * ∞ = nan` into the acceleration and hence into `qd`. -/
def c1cex : Path :=
  Path.mk (F.fin 0) (F.fin 0) (F.fin 0) (F.inf true) (F.fin 0) (F.inf true)
    (F.inf true) (F.fin 0) (F.fin 0) (F.fin 1) (F.fin 2400) (F.fin 24000)

/-- All-finite Path state instantiating the amended C1 theorem. -/
def c1state : Path :=
  Path.mk (F.fin 1) (F.fin 2) (F.fin 0) (F.fin 3) (F.fin 4) (F.fin 5)
    (F.fin 6) (F.fin 0) (F.fin 7) (F.fin 8) (F.fin 2400) (F.fin 24000)

/-- Benign Path state used to exercise the speed-setting operations. -/
def c7state : Path :=
  Path.mk (F.fin 0) (F.fin 0) (F.fin 0) (F.fin 0) (F.fin 0) (F.fin 0)
    (F.inf true) (F.fin 0) (F.fin 0) (F.fin 0) (F.fin 2400) (F.fin 24000)

/-- Path state refuting C10 as stated: `|qd| ≤ qd_max` holds beforehand,
yet a zero-interval poll changes `qd` (to nan, via `0 * ∞` in the PD
term with `k = 0` and `q_d = +∞`). -/
def c10cex : Path :=
  Path.mk (F.fin 0) (F.fin 0) (F.fin 0) (F.inf true) (F.fin 0) (F.inf true)
    (F.fin 1) (F.fin 0) (F.fin 0) (F.fin 1) (F.fin 2400) (F.fin 24000)

/-- All-finite Path state with a pending finite-speed ramp,
instantiating the amended C10 theorem. -/
def c10state : Path :=
  Path.mk (F.fin 1) (F.fin 2) (F.fin 0) (F.fin 3) (F.fin 4) (F.fin 10)
    (F.fin 5) (F.fin 0) (F.fin 7) (F.fin 8) (F.fin 2400) (F.fin 24000)

end StepperWinch

namespace StepperWinch

/-! ### Helper lemmas -/

theorem F.isFinite_iff {a : F} : a.isFinite = true ↔ ∃ x : ℚ, a = F.fin x := by
  cases a <;> simp [F.isFinite]

theorem F.add_fin (x y : ℚ) : F.add (F.fin x) (F.fin y) = F.fin (x + y) := rfl

theorem F.mul_fin (x y : ℚ) : F.mul (F.fin x) (F.fin y) = F.fin (x * y) := rfl

theorem F.neg_fin (x : ℚ) : F.neg (F.fin x) = F.fin (-x) := rfl

theorem F.sub_fin (x y : ℚ) : F.sub (F.fin x) (F.fin y) = F.fin (x - y) := by
  simp [F.sub, F.neg, F.add, sub_eq_add_neg]

theorem F.add_fin_zero (a : F) : F.add a (F.fin 0) = a := by
  cases a <;> simp [F.add]

/-- Clamping a finite value between `-m` and `m` yields a finite value
whenever `0 ≤ m` in the IEEE order. -/
theorem F.constrain_fin_of_nonneg (x : ℚ) (m : F)
    (hm : F.ble (F.fin 0) m = true) :
    ∃ y : ℚ, F.constrain (F.fin x) (F.neg m) m = F.fin y := by
  cases m with
  | nan => simp [F.ble, F.blt, F.beq] at hm
  | inf b =>
    cases b with
    | false => simp [F.ble, F.blt, F.beq] at hm
    | true => exact ⟨x, by simp [F.constrain, F.neg, F.blt]⟩
  | fin mv =>
    unfold F.constrain
    split_ifs with h1 h2
    · exact ⟨-mv, rfl⟩
    · exact ⟨mv, rfl⟩
    · exact ⟨x, rfl⟩

/-- Clamping a finite value between `-m` and `m` with `0 ≤ m` produces a
value of magnitude at most `m`. -/
theorem F.abs_constrain_ble (x : ℚ) (m : F)
    (hm : F.ble (F.fin 0) m = true) :
    F.ble (F.abs (F.constrain (F.fin x) (F.neg m) m)) m = true := by
  cases m with
  | nan => simp [F.ble, F.blt, F.beq] at hm
  | inf b =>
    cases b with
    | false => simp [F.ble, F.blt, F.beq] at hm
    | true => simp [F.constrain, F.neg, F.blt, F.abs, F.ble, F.beq]
  | fin mv =>
    have h0 : (0 : ℚ) ≤ mv := by
      simp [F.ble, F.blt, F.beq] at hm
      rcases hm with h | h
      · exact le_of_lt h
      · exact le_of_eq h
    unfold F.constrain
    split_ifs with h1 h2
    · simp only [F.neg, F.abs, F.ble, F.blt, F.beq, abs_neg, abs_of_nonneg h0]
      simp
    · simp only [F.abs, F.ble, F.blt, F.beq, abs_of_nonneg h0]
      simp
    · simp only [F.neg, F.blt, decide_eq_true_eq] at h1 h2
      have : |x| ≤ mv := abs_le.mpr ⟨le_of_not_lt h1, le_of_not_lt h2⟩
      simp only [F.abs, F.ble, F.blt, F.beq]
      rcases lt_or_eq_of_le this with h | h <;> simp [h]

/-- A finite value already within `[-m, m]` is left unchanged by the
clamp. -/
theorem F.constrain_self_of_abs_ble (x : ℚ) (m : F)
    (h : F.ble (F.abs (F.fin x)) m = true) :
    F.constrain (F.fin x) (F.neg m) m = F.fin x := by
  cases m with
  | nan => simp [F.abs, F.ble, F.blt, F.beq] at h
  | inf b =>
    cases b with
    | false => simp [F.abs, F.ble, F.blt, F.beq] at h
    | true => simp [F.constrain, F.neg, F.blt]
  | fin mv =>
    have hx : |x| ≤ mv := by
      simp [F.abs, F.ble, F.blt, F.beq] at h
      rcases h with h | h
      · exact le_of_lt h
      · exact le_of_eq h
    rw [abs_le] at hx
    unfold F.constrain
    rw [if_neg, if_neg]
    · simp [F.blt]
      exact hx.2
    · simp [F.neg, F.blt]
      exact hx.1

/-- The three integration equations of `Path::pollForInterval`: the new
`q` uses the pre-update `qd`, the integrated acceleration is the clamped
PD acceleration of the pre-poll state, and `t` advances by `dt`. -/
theorem pollForInterval_integration (s : Path) (i : ℕ) :
    (s.pollForInterval i).q
      = F.add s.q (F.mul s.qd (F.fin ((i : ℚ) / 1000000))) ∧
    (s.pollForInterval i).qd
      = F.constrain
          (F.add s.qd
            (F.mul
              (F.constrain
                (F.add (F.mul s.k (F.sub s.q_d s.q))
                  (F.mul s.b (F.sub s.qd_d s.qd)))
                (F.neg s.qdd_max) s.qdd_max)
              (F.fin ((i : ℚ) / 1000000))))
          (F.neg s.qd_max) s.qd_max ∧
    (s.pollForInterval i).t = F.add s.t (F.fin ((i : ℚ) / 1000000)) := by
  simp only [Path.pollForInterval]
  split_ifs <;> exact ⟨rfl, rfl, rfl⟩

end StepperWinch

namespace StepperWinch

/-- C2: each call to `Stepper::pollForInterval` emits at most one step
pulse and changes `position` by at most one; when a pulse is emitted,
`position` moves by exactly one toward `target`, so the distance
`|target - position|` never increases during a poll. -/
theorem C2_stepper_single_pulse (s : Stepper) (i : ℕ) :
    Stepper.pulses (s.pollForInterval i).2 ≤ 1 ∧
    ((s.pollForInterval i).1.position - s.position).natAbs ≤ 1 ∧
    (Ev.stepWrite true ∈ (s.pollForInterval i).2 →
      (s.target - (s.pollForInterval i).1.position).natAbs + 1
        = (s.target - s.position).natAbs) ∧
    (s.target - (s.pollForInterval i).1.position).natAbs
      ≤ (s.target - s.position).natAbs := by
  unfold Stepper.pollForInterval Stepper.pulses
  by_cases h1 : s.step_interval ≤ (s.elapsed + i) % 4294967296 <;>
  by_cases h2 : s.position = s.target <;>
  by_cases h3 : s.position < s.target <;>
  simp [h1, h2, h3, List.count_cons, beq_iff_eq] <;> omega

end StepperWinch

namespace StepperWinch

theorem poll_acc (sp dp : ℕ) (t p : ℤ) (e : ℕ) (he : e + 50 < 200) :
    Stepper.pollForInterval ⟨sp, dp, t, 200, p, e⟩ 50 = (⟨sp, dp, t, 200, p, e + 50⟩, []) := by
  unfold Stepper.pollForInterval
  simp only
  rw [Nat.mod_eq_of_lt (by omega), if_neg (by omega)]

theorem poll_step (sp dp : ℕ) (t p : ℤ) (hlt : p < t) :
    Stepper.pollForInterval ⟨sp, dp, t, 200, p, 150⟩ 50
      = (⟨sp, dp, t, 200, p + 1, 0⟩,
         [Ev.dirWrite true, Ev.stepWrite true, Ev.stepWrite false]) := by
  unfold Stepper.pollForInterval
  simp only
  rw [Nat.mod_eq_of_lt (by omega), if_pos (by omega), if_pos (by omega : p ≠ t),
    if_pos hlt]
  simp [hlt]

theorem pollN_fourStep (sp dp : ℕ) (p t : ℤ) (k : ℕ) (h : p + k ≤ t) :
    Stepper.pollN ⟨sp, dp, t, 200, p, 0⟩ 50 (4 * k)
      = (⟨sp, dp, t, 200, p + k, 0⟩, k) := by
  induction k generalizing p with
  | zero => simp [Stepper.pollN]
  | succ k ih =>
    have hlt : p < t := by omega
    have h4 : 4 * (k + 1) = ((((4 * k).succ).succ).succ).succ := by omega
    rw [h4]
    simp only [Stepper.pollN]
    rw [poll_acc sp dp t p 0 (by omega)]
    simp only
    rw [poll_acc sp dp t p 50 (by omega)]
    simp only
    rw [poll_acc sp dp t p 100 (by omega)]
    simp only
    rw [poll_step sp dp t p hlt]
    simp only
    rw [ih (p + 1) (by omega)]
    simp [Stepper.pulses]
    constructor
    · omega
    · omega

end StepperWinch

namespace StepperWinch

theorem C5_step_rate (sp dp : ℕ) (p : ℤ) :
    Stepper.pollN ⟨sp, dp, p + 1000000, 200, p, 0⟩ 50 20000
      = (⟨sp, dp, p + 1000000, 200, p + 5000, 0⟩, 5000) := by
  have h := pollN_fourStep sp dp p (p + 1000000) 5000 (by omega)
  norm_num at h
  exact h

theorem C6_dir_write (s : Stepper) (i : ℕ)
    (h : Ev.stepWrite true ∈ (s.pollForInterval i).2) :
    (s.pollForInterval i).2
      = [Ev.dirWrite (s.position < s.target), Ev.stepWrite true,
         Ev.stepWrite false] ∧
    (s.pollForInterval i).1.position
      = (if s.position < s.target then s.position + 1 else s.position - 1) ∧
    (¬ s.position < s.target → s.target < s.position) := by
  unfold Stepper.pollForInterval at *
  by_cases h1 : s.step_interval ≤ (s.elapsed + i) % 4294967296 <;>
    by_cases h2 : s.position = s.target <;>
      first
        | (simp_all; omega)
        | simp_all

theorem C6_dir_write_witness :
    Ev.stepWrite true ∈ (Stepper.pollForInterval ⟨0, 0, -100, 200, 100, 150⟩ 50).2 ∧
    (Stepper.pollForInterval ⟨0, 0, -100, 200, 100, 150⟩ 50).2
      = [Ev.dirWrite false, Ev.stepWrite true, Ev.stepWrite false] ∧
    (Stepper.pollForInterval ⟨0, 0, -100, 200, 100, 150⟩ 50).1.position = 99 :=
  ⟨by decide, by
    have h := C6_dir_write ⟨0, 0, -100, 200, 100, 150⟩ 50 (by decide)
    refine ⟨?_, ?_⟩
    · rw [h.1]; norm_num
    · rw [h.2.1]; norm_num⟩

theorem C8_set_speed (s : Stepper) (v : ℤ) :
    (0 < v → (s.setSpeed v).step_interval = max 1 (1000000 / v.toNat)) ∧
    (v ≤ 0 → (s.setSpeed v).step_interval = s.step_interval) ∧
    (1 ≤ s.step_interval → 1 ≤ (s.setSpeed v).step_interval) ∧
    (∀ i : ℕ, (s.pollForInterval i).1.step_interval = s.step_interval) ∧
    (∀ p : ℤ, (s.setTarget p).step_interval = s.step_interval) ∧
    (∀ d : ℤ, (s.incrementTarget d).step_interval = s.step_interval) ∧
    (∀ sp dp : ℕ, 1 ≤ (Stepper.mkStepper sp dp).step_interval) := by
  refine ⟨?_, ?_, ?_, ?_, fun p => rfl, fun d => rfl,
    fun sp dp => by norm_num [Stepper.mkStepper]⟩
  · intro hv
    simp only [Stepper.setSpeed, if_pos hv]
    rcases Nat.eq_zero_or_pos (1000000 / v.toNat) with h0 | h0
    · simp [h0]
    · rw [if_neg (by omega)]
      exact (Nat.max_eq_right h0).symm
  · intro hv
    simp only [Stepper.setSpeed]
    rw [if_neg (by omega)]
  · intro h1
    simp only [Stepper.setSpeed]
    split_ifs with hv h0
    · exact Nat.le_refl 1
    · exact Nat.one_le_iff_ne_zero.mpr h0
    · exact h1
  · intro i
    simp only [Stepper.pollForInterval]
    split_ifs <;> rfl

theorem C8_set_speed_witness :
    (0 : ℤ) < 3 ∧
    (Stepper.setSpeed ⟨0, 0, 0, 200, 0, 0⟩ 3).step_interval
      = max 1 (1000000 / (3 : ℤ).toNat) :=
  ⟨by decide, (C8_set_speed ⟨0, 0, 0, 200, 0, 0⟩ 3).1 (by decide)⟩

theorem C9_elapsed_carry (s : Stepper) (i : ℕ) :
    (s.step_interval ≤ (s.elapsed + i) % 2 ^ 32 →
      (s.pollForInterval i).1.elapsed
        = (s.elapsed + i) % 2 ^ 32 - s.step_interval) ∧
    (s.position = s.target → (s.pollForInterval i).2 = []) ∧
    (s.step_interval < 2 ^ 32 → i ≤ s.step_interval →
      s.elapsed < s.step_interval →
      (s.pollForInterval i).1.elapsed < s.step_interval) ∧
    (s.pollForInterval i).1.step_interval = s.step_interval ∧
    Stepper.pulses
      ((Stepper.setTarget ⟨0, 0, 0, 200, 0, 150⟩ 5).pollForInterval 50).2 = 1 := by
  refine ⟨?_, ?_, ?_, ?_, by decide⟩ <;>
    · simp only [Stepper.pollForInterval]
      split_ifs <;> (try simp_all) <;> omega

theorem C9_elapsed_carry_witness :
    (200 : ℕ) ≤ (150 + 50) % 2 ^ 32 ∧
    (Stepper.pollForInterval ⟨0, 0, 5, 200, 0, 150⟩ 50).1.elapsed
      = (150 + 50) % 2 ^ 32 - 200 :=
  ⟨by decide, (C9_elapsed_carry ⟨0, 0, 5, 200, 0, 150⟩ 50).1 (by decide)⟩

theorem C2_stepper_single_pulse_witness :
    Ev.stepWrite true ∈ (Stepper.pollForInterval ⟨0, 0, 5, 200, 0, 150⟩ 50).2 ∧
    ((5 : ℤ) - (Stepper.pollForInterval ⟨0, 0, 5, 200, 0, 150⟩ 50).1.position).natAbs + 1
      = ((5 : ℤ) - 0).natAbs :=
  ⟨by decide, (C2_stepper_single_pulse ⟨0, 0, 5, 200, 0, 150⟩ 50).2.2.1 (by decide)⟩

end StepperWinch

namespace StepperWinch

/-- C3: in every poll with `dt = interval * 1e-6`, the integrated
acceleration is `clamp(k*(q_ref - q) + b*(qd_ref - qd), ±qdd_max)`
computed from the pre-poll state, and forward Euler updates `q` with the
pre-update `qd` before updating `qd`; `t` advances by `dt`. -/
theorem C3_forward_euler (s : Path) (i : ℕ) :
    (s.pollForInterval i).q
      = F.add s.q (F.mul s.qd (F.fin ((i : ℚ) / 1000000))) ∧
    (s.pollForInterval i).qd
      = F.constrain
          (F.add s.qd
            (F.mul
              (F.constrain
                (F.add (F.mul s.k (F.sub s.q_d s.q))
                  (F.mul s.b (F.sub s.qd_d s.qd)))
                (F.neg s.qdd_max) s.qdd_max)
              (F.fin ((i : ℚ) / 1000000))))
          (F.neg s.qd_max) s.qd_max ∧
    (s.pollForInterval i).t = F.add s.t (F.fin ((i : ℚ) / 1000000)) :=
  pollForInterval_integration s i

/-- C4: the reference-advance step of every poll is the sequential case
analysis on `err = q_target - q_ref`: at `err == 0` the reference
velocity is zeroed and the reference position kept; otherwise with
infinite speed the reference jumps to the target with zero reference
velocity; otherwise the reference moves toward the target by
`min(speed*dt, |err|)` preserving sign, with `qd_ref = +speed` when
moving forward and `-speed` when moving backward (also on the poll in
which the ramp completes). -/
theorem C4_reference_ramp (s : Path) (i : ℕ) :
    (F.beqz (F.sub s.q_d_d s.q_d) = true →
      (s.pollForInterval i).qd_d = F.fin 0 ∧
      (s.pollForInterval i).q_d = s.q_d) ∧
    (F.beqz (F.sub s.q_d_d s.q_d) = false → F.isinf s.speed = true →
      (s.pollForInterval i).q_d = s.q_d_d ∧
      (s.pollForInterval i).qd_d = F.fin 0) ∧
    (F.beqz (F.sub s.q_d_d s.q_d) = false → F.isinf s.speed = false →
      (F.blt (F.fin 0) (F.sub s.q_d_d s.q_d) = true →
        (s.pollForInterval i).q_d
          = F.add s.q_d
              (F.fmin (F.mul s.speed (F.fin ((i : ℚ) / 1000000)))
                (F.sub s.q_d_d s.q_d)) ∧
        (s.pollForInterval i).qd_d = s.speed) ∧
      (F.blt (F.fin 0) (F.sub s.q_d_d s.q_d) = false →
        (s.pollForInterval i).q_d
          = F.sub s.q_d
              (F.fmin (F.mul s.speed (F.fin ((i : ℚ) / 1000000)))
                (F.neg (F.sub s.q_d_d s.q_d))) ∧
        (s.pollForInterval i).qd_d = F.neg s.speed)) := by
  simp only [Path.pollForInterval]
  split_ifs with h1 h2 h3
  all_goals
    refine ⟨fun hz => ?_, fun hz hinf => ?_,
      fun hz hinf => ⟨fun hgt => ?_, fun hgt => ?_⟩⟩
  all_goals first
    | exact ⟨rfl, rfl⟩
    | simp_all

theorem C4_reference_ramp_witness :
    F.beqz (F.sub c4state.q_d_d c4state.q_d) = false ∧
    F.isinf c4state.speed = false ∧
    F.blt (F.fin 0) (F.sub c4state.q_d_d c4state.q_d) = true ∧
    ((c4state.pollForInterval 1000000).q_d
        = F.add c4state.q_d
            (F.fmin (F.mul c4state.speed (F.fin ((1000000 : ℚ) / 1000000)))
              (F.sub c4state.q_d_d c4state.q_d)) ∧
     (c4state.pollForInterval 1000000).qd_d = c4state.speed) :=
  ⟨by simp [c4state, F.beqz, F.beq, F.sub, F.add, F.neg],
   by simp [c4state, F.isinf],
   by norm_num [c4state, F.blt, F.sub, F.add, F.neg],
   ((C4_reference_ramp c4state 1000000).2.2
       (by simp [c4state, F.beqz, F.beq, F.sub, F.add, F.neg])
       (by simp [c4state, F.isinf])).1
     (by norm_num [c4state, F.blt, F.sub, F.add, F.neg])⟩

end StepperWinch

namespace StepperWinch

/-- C1 counterexample: the claim quantifies over every prior state with
`qd_max ≥ 0`, but from the state `c1cex` (whose fields are reachable
through the public operations) the poll stores nan into `qd`, and
`|qd| ≤ qd_max` is false on return even though `qd_max = 2400 ≥ 0`. -/
theorem C1_velocity_clamp_cex :
    F.ble (F.fin 0) c1cex.qd_max = true ∧
    F.ble (F.abs ((c1cex.pollForInterval 1000).qd)) c1cex.qd_max = false := by
  constructor
  · norm_num [c1cex, F.ble, F.blt, F.beq]
  · norm_num [c1cex, Path.pollForInterval, F.ble, F.blt, F.beq, F.abs,
      F.sub, F.add, F.neg, F.mul, F.constrain, F.beqz, F.isinf, F.fmin]

/-- C1 (amended): for every poll from a state whose `q`, `qd`, `q_ref`,
`qd_ref` and gains `k`, `b` are finite, and whose clamps satisfy
`qd_max ≥ 0` and `qdd_max ≥ 0` as configured, `|qd| ≤ qd_max` holds when
the poll returns. -/
theorem C1_velocity_clamp (s : Path) (i : ℕ)
    (hq : s.q.isFinite = true) (hqd : s.qd.isFinite = true)
    (hq_d : s.q_d.isFinite = true) (hqd_d : s.qd_d.isFinite = true)
    (hk : s.k.isFinite = true) (hb : s.b.isFinite = true)
    (hdd : F.ble (F.fin 0) s.qdd_max = true)
    (hd : F.ble (F.fin 0) s.qd_max = true) :
    F.ble (F.abs ((s.pollForInterval i).qd)) s.qd_max = true := by
  obtain ⟨a, ha⟩ := F.isFinite_iff.mp hq
  obtain ⟨w, hw⟩ := F.isFinite_iff.mp hqd
  obtain ⟨c, hc⟩ := F.isFinite_iff.mp hq_d
  obtain ⟨d, hd2⟩ := F.isFinite_iff.mp hqd_d
  obtain ⟨e, he⟩ := F.isFinite_iff.mp hk
  obtain ⟨f, hf⟩ := F.isFinite_iff.mp hb
  rw [(pollForInterval_integration s i).2.1, ha, hw, hc, hd2, he, hf]
  rw [F.sub_fin, F.sub_fin, F.mul_fin, F.mul_fin, F.add_fin]
  obtain ⟨y, hy⟩ :=
    F.constrain_fin_of_nonneg (e * (c - a) + f * (d - w)) s.qdd_max hdd
  rw [hy, F.mul_fin, F.add_fin]
  exact F.abs_constrain_ble _ _ hd

theorem C1_velocity_clamp_witness :
    c1state.q.isFinite = true ∧ c1state.qd.isFinite = true ∧
    c1state.q_d.isFinite = true ∧ c1state.qd_d.isFinite = true ∧
    c1state.k.isFinite = true ∧ c1state.b.isFinite = true ∧
    F.ble (F.fin 0) c1state.qdd_max = true ∧
    F.ble (F.fin 0) c1state.qd_max = true ∧
    F.ble (F.abs ((c1state.pollForInterval 1000).qd)) c1state.qd_max = true :=
  ⟨by simp [c1state, F.isFinite], by simp [c1state, F.isFinite],
   by simp [c1state, F.isFinite], by simp [c1state, F.isFinite],
   by simp [c1state, F.isFinite], by simp [c1state, F.isFinite],
   by norm_num [c1state, F.ble, F.blt, F.beq],
   by norm_num [c1state, F.ble, F.blt, F.beq],
   C1_velocity_clamp c1state 1000
     (by simp [c1state, F.isFinite]) (by simp [c1state, F.isFinite])
     (by simp [c1state, F.isFinite]) (by simp [c1state, F.isFinite])
     (by simp [c1state, F.isFinite]) (by simp [c1state, F.isFinite])
     (by norm_num [c1state, F.ble, F.blt, F.beq])
     (by norm_num [c1state, F.ble, F.blt, F.beq])⟩

/-- C7 counterexample: `setVelocity` with the non-positive argument `-5`
stores the finite speed `5`, not `+∞`, refuting the claim that every
non-positive user speed is coerced to `+∞`. -/
theorem C7_speed_coercion_cex :
    (Path.setVelocity c7state (-5)).speed = F.fin 5 ∧
    (Path.setVelocity c7state (-5)).speed ≠ F.inf true := by
  constructor
  · norm_num [Path.setVelocity, c7state]
  · norm_num [Path.setVelocity, c7state]
    intro h
    exact F.noConfusion h

/-- C7 (amended): after `setSpeed` or `setVelocity` the stored speed is
nonnegative in the IEEE order; `setSpeed` coerces non-positive arguments
to `+∞` and stores positive ones as given; `setVelocity` stores `|v|`,
which is finite (so a non-positive argument to it does not produce
`+∞`). -/
theorem C7_speed_nonneg (s : Path) (v : ℤ) :
    F.ble (F.fin 0) ((s.setSpeed v).speed) = true ∧
    F.ble (F.fin 0) ((s.setVelocity v).speed) = true ∧
    (v ≤ 0 → (s.setSpeed v).speed = F.inf true) ∧
    (0 < v → (s.setSpeed v).speed = F.fin (v : ℚ)) ∧
    (s.setVelocity v).speed = F.fin ((v.natAbs : ℚ)) := by
  refine ⟨?_, ?_, fun hv => ?_, fun hv => ?_, rfl⟩
  · simp only [Path.setSpeed]
    split_ifs with h
    · rfl
    · simp only [F.ble, F.blt, F.beq, Bool.or_eq_true, decide_eq_true_eq]
      exact Or.inl (by exact_mod_cast (by omega : (0 : ℤ) < v))
  · simp only [Path.setVelocity, F.ble, F.blt, F.beq, Bool.or_eq_true,
      decide_eq_true_eq]
    rcases Nat.eq_zero_or_pos v.natAbs with h | h
    · exact Or.inr (by rw [h]; norm_num)
    · exact Or.inl (by exact_mod_cast h)
  · simp only [Path.setSpeed, if_pos hv]
  · simp only [Path.setSpeed, if_neg (by omega : ¬ v ≤ 0)]

theorem C7_speed_nonneg_witness :
    ((-3 : ℤ) ≤ 0 ∧ (Path.setSpeed c7state (-3)).speed = F.inf true) ∧
    ((0 : ℤ) < 4 ∧ (Path.setSpeed c7state 4).speed = F.fin ((4 : ℤ) : ℚ)) :=
  ⟨⟨by decide, (C7_speed_nonneg c7state (-3)).2.2.1 (by decide)⟩,
   ⟨by decide, (C7_speed_nonneg c7state 4).2.2.2.1 (by decide)⟩⟩

end StepperWinch

namespace StepperWinch

/-- C10 counterexample: the claim asserts a zero-interval poll leaves
`qd` unchanged given only `|qd| ≤ qd_max` beforehand, but from `c10cex`
(reachable through the public operations) the poll stores nan into `qd`
although `|qd| ≤ qd_max` held. -/
theorem C10_zero_poll_cex :
    F.ble (F.abs c10cex.qd) c10cex.qd_max = true ∧
    (c10cex.pollForInterval 0).qd ≠ c10cex.qd := by
  constructor
  · norm_num [c10cex, F.abs, F.ble, F.blt, F.beq]
  · norm_num [c10cex, Path.pollForInterval, F.sub, F.add, F.neg, F.mul,
      F.constrain, F.blt, F.beq, F.beqz, F.isinf, F.fmin]
    intro h
    exact F.noConfusion h

/-- C10 (amended): a zero-interval poll from a state whose `q`, `qd`,
`q_ref`, `qd_ref`, `k`, `b` are finite, whose target is not nan, with
`qdd_max ≥ 0` and `|qd| ≤ qd_max`, leaves `q`, `qd` and `t` unchanged,
yet still runs the reference step: with a pending error and infinite
speed the reference jumps to the target and `qd_ref` becomes 0; with
finite speed the reference moves by 0 while `qd_ref` is set to `+speed`
or `-speed` by the sign of the error. -/
theorem C10_zero_poll (s : Path)
    (hq : s.q.isFinite = true) (hqd : s.qd.isFinite = true)
    (hq_d : s.q_d.isFinite = true) (hqd_d : s.qd_d.isFinite = true)
    (hk : s.k.isFinite = true) (hb : s.b.isFinite = true)
    (hT : s.q_d_d ≠ F.nan)
    (hdd : F.ble (F.fin 0) s.qdd_max = true)
    (hv : F.ble (F.abs s.qd) s.qd_max = true) :
    (s.pollForInterval 0).q = s.q ∧
    (s.pollForInterval 0).qd = s.qd ∧
    (s.pollForInterval 0).t = s.t ∧
    (F.beqz (F.sub s.q_d_d s.q_d) = false → F.isinf s.speed = true →
      (s.pollForInterval 0).q_d = s.q_d_d ∧
      (s.pollForInterval 0).qd_d = F.fin 0) ∧
    (∀ w : ℚ, F.beqz (F.sub s.q_d_d s.q_d) = false → s.speed = F.fin w →
      (s.pollForInterval 0).q_d = s.q_d ∧
      (F.blt (F.fin 0) (F.sub s.q_d_d s.q_d) = true →
        (s.pollForInterval 0).qd_d = F.fin w) ∧
      (F.blt (F.fin 0) (F.sub s.q_d_d s.q_d) = false →
        (s.pollForInterval 0).qd_d = F.fin (-w))) := by
  obtain ⟨a, ha⟩ := F.isFinite_iff.mp hq
  obtain ⟨w0, hw⟩ := F.isFinite_iff.mp hqd
  obtain ⟨c, hc⟩ := F.isFinite_iff.mp hq_d
  obtain ⟨d, hd2⟩ := F.isFinite_iff.mp hqd_d
  obtain ⟨e, he⟩ := F.isFinite_iff.mp hk
  obtain ⟨f, hf⟩ := F.isFinite_iff.mp hb
  have hA := pollForInterval_integration s 0
  refine ⟨?_, ?_, ?_, ?_, ?_⟩
  · rw [hA.1, hw, F.mul_fin]
    norm_num
    exact F.add_fin_zero s.q
  · rw [hA.2.1, ha, hw, hc, hd2, he, hf]
    rw [F.sub_fin, F.sub_fin, F.mul_fin, F.mul_fin, F.add_fin]
    obtain ⟨y, hy⟩ :=
      F.constrain_fin_of_nonneg (e * (c - a) + f * (d - w0)) s.qdd_max hdd
    rw [hy, F.mul_fin]
    norm_num [F.add_fin]
    rw [hw] at hv
    exact F.constrain_self_of_abs_ble w0 _ hv
  · rw [hA.2.2]
    norm_num
    exact F.add_fin_zero s.t
  · intro hz hinf
    simp only [Path.pollForInterval]
    rw [if_neg (by simp [hz]), if_pos hinf]
    exact ⟨rfl, rfl⟩
  · intro w' hz hsp
    simp only [Path.pollForInterval]
    rw [if_neg (by simp [hz]), if_neg (by simp [hsp, F.isinf]), hsp, hc]
    rw [hc] at hz
    have h0 : F.mul (F.fin w') (F.fin (((0 : ℕ) : ℚ) / 1000000)) = F.fin 0 := by
      rw [F.mul_fin]; norm_num
    by_cases hgt : F.blt (F.fin 0) (F.sub s.q_d_d (F.fin c)) = true
    · rw [if_pos hgt]
      refine ⟨?_, fun _ => rfl, fun hcontra => by simp [hcontra] at hgt⟩
      show F.add (F.fin c) _ = F.fin c
      rw [h0]
      simp only [F.fmin]
      rw [if_pos hgt]
      exact F.add_fin_zero _
    · rw [if_neg hgt]
      have hpos : F.blt (F.fin 0) (F.neg (F.sub s.q_d_d (F.fin c))) = true := by
        cases hQ : s.q_d_d with
        | nan => exact absurd hQ hT
        | inf b =>
          rw [hQ] at hgt
          cases b with
          | true => exact absurd (by simp [F.sub, F.add, F.neg, F.blt]) hgt
          | false => simp [F.sub, F.add, F.neg, F.blt]
        | fin z =>
          rw [hQ] at hgt hz
          rw [F.sub_fin] at hgt hz ⊢
          simp only [F.beqz, F.beq, decide_eq_false_iff_not] at hz
          simp only [F.blt, decide_eq_true_eq] at hgt
          simp only [F.neg_fin, F.blt, decide_eq_true_eq]
          rcases lt_trichotomy (z - c) 0 with h | h | h
          · linarith
          · exact absurd h hz
          · exact absurd h hgt
      refine ⟨?_, fun hcontra => by simp [hcontra] at hgt, fun _ => rfl⟩
      show F.sub (F.fin c) _ = F.fin c
      rw [h0]
      simp only [F.fmin]
      rw [if_pos hpos, F.sub_fin]
      norm_num

end StepperWinch

namespace StepperWinch

theorem C10_zero_poll_witness :
    c10state.q.isFinite = true ∧ c10state.qd.isFinite = true ∧
    c10state.q_d.isFinite = true ∧ c10state.qd_d.isFinite = true ∧
    c10state.k.isFinite = true ∧ c10state.b.isFinite = true ∧
    c10state.q_d_d ≠ F.nan ∧
    F.ble (F.fin 0) c10state.qdd_max = true ∧
    F.ble (F.abs c10state.qd) c10state.qd_max = true ∧
    F.beqz (F.sub c10state.q_d_d c10state.q_d) = false ∧
    c10state.speed = F.fin 5 ∧
    F.blt (F.fin 0) (F.sub c10state.q_d_d c10state.q_d) = true ∧
    (c10state.pollForInterval 0).q = c10state.q ∧
    (c10state.pollForInterval 0).qd_d = F.fin 5 := by
  have hq : c10state.q.isFinite = true := rfl
  have hqd : c10state.qd.isFinite = true := rfl
  have hq_d : c10state.q_d.isFinite = true := rfl
  have hqd_d : c10state.qd_d.isFinite = true := rfl
  have hk : c10state.k.isFinite = true := rfl
  have hb : c10state.b.isFinite = true := rfl
  have hT : c10state.q_d_d ≠ F.nan := fun h => F.noConfusion h
  have hdd : F.ble (F.fin 0) c10state.qdd_max = true := by
    norm_num [c10state, F.ble, F.blt, F.beq]
  have hv : F.ble (F.abs c10state.qd) c10state.qd_max = true := by
    norm_num [c10state, F.abs, F.ble, F.blt, F.beq]
  have hz : F.beqz (F.sub c10state.q_d_d c10state.q_d) = false := by
    norm_num [c10state, F.beqz, F.beq, F.sub, F.add, F.neg]
  have hsp : c10state.speed = F.fin 5 := rfl
  have hgt : F.blt (F.fin 0) (F.sub c10state.q_d_d c10state.q_d) = true := by
    norm_num [c10state, F.blt, F.sub, F.add, F.neg]
  have H := C10_zero_poll c10state hq hqd hq_d hqd_d hk hb hT hdd hv
  exact ⟨hq, hqd, hq_d, hqd_d, hk, hb, hT, hdd, hv, hz, hsp, hgt,
    H.1, (H.2.2.2.2 5 hz hsp).2.1 hgt⟩

end StepperWinch
